import Mathlib

/-!
Shallow embedding of the version-comparison utility of the romm-mobile
repository (`compareVersions`, `isVersionAtLeast` in the version-utils
module, and the inline gate `isServerVersionAtLeast` in
`src/contexts/ServerContext.tsx`), together with proofs settling the
specification claims about it.

Modelling choices:
* A JavaScript string is modelled as a `List Char` (we take `String.data`
  at the interface boundary).
* `s.split(c)` for a single-character separator is modelled by
  `splitOnChar`; `s.split(c)[0]` by `takeUntilChar`.  Both match the
  ECMAScript semantics on every input (in particular `"".split(c) = [""]`).
* The result of `Number(segment)` is modelled by `JSNum`: either `NaN`,
  `Infinity`, or an exact non-negative integer.  The segments fed to
  `Number` here never contain `'-'`, `'+'` or `'.'` (those are split away
  first), so the sign, fraction and signed-exponent forms of the
  ECMAScript string-numeric-literal grammar cannot occur and negative or
  fractional values are impossible; the remaining forms (whitespace-only,
  empty, `Infinity`, hex/octal/binary literals, decimal digits with an
  unsigned exponent) are modelled.  The mathematical value of a literal
  is always a natural number here, and `Number` returns the nearest
  IEEE-754 double: this is modelled by `jsRoundNat` (round-to-nearest,
  ties-to-even, at 53 significant bits) and `jsDouble` (overflow to
  `Infinity` once the rounded value reaches `2 ^ 1024`), so that e.g.
  `Number("9007199254740993") = Number("9007199254740992") = 2 ^ 53`.
* The `for` loop of `compareVersions` is modelled by fuel recursion
  (`compareLoop`), the fuel being `max v1Parts.length v2Parts.length`,
  the (constant) loop bound.  The pair's second component records whether
  the `console.warn` branch was taken.
-/

/-- A JavaScript number as produced by `Number(segment)` on the segment
strings arising in this program: `NaN`, `Infinity`, or an exact
non-negative integer. -/
inductive JSNum : Type
  | nan : JSNum
  | inf : JSNum
  | val : Nat → JSNum
deriving DecidableEq, Repr

/-- JavaScript `a > b` on the numbers that can arise here
(any comparison involving `NaN` is false). -/
def jsGt : JSNum → JSNum → Bool
  | JSNum.nan, _ => false
  | _, JSNum.nan => false
  | JSNum.inf, JSNum.inf => false
  | JSNum.inf, JSNum.val _ => true
  | JSNum.val _, JSNum.inf => false
  | JSNum.val a, JSNum.val b => decide (a > b)

/-- JavaScript `a < b` on the numbers that can arise here. -/
def jsLt : JSNum → JSNum → Bool
  | JSNum.nan, _ => false
  | _, JSNum.nan => false
  | JSNum.inf, JSNum.inf => false
  | JSNum.inf, JSNum.val _ => false
  | JSNum.val _, JSNum.inf => true
  | JSNum.val a, JSNum.val b => decide (a < b)

/-- JavaScript `isNaN` on an already-numeric value. -/
def jsIsNaN : JSNum → Bool
  | JSNum.nan => true
  | JSNum.inf => false
  | JSNum.val _ => false

/-- `parts[i] || 0`: indexing past the end yields `undefined`, and both
`undefined` and the falsy numbers (`NaN`, `0`) are replaced by `0`;
every other number is truthy and kept. -/
def orZero : Option JSNum → JSNum
  | none => JSNum.val 0
  | some JSNum.nan => JSNum.val 0
  | some v => v

/-- JavaScript whitespace characters relevant to `Number` trimming
(ASCII subset; the program never feeds exotic Unicode whitespace). -/
def isJsWs (c : Char) : Bool :=
  c = ' ' || c = '\t' || c = '\n' || c = '\r' || c = '\x0b' || c = '\x0c'

/-- Decimal digit test. -/
def isDigit (c : Char) : Bool := '0' ≤ c && c ≤ '9'

/-- Hexadecimal digit test. -/
def isHexDigit (c : Char) : Bool :=
  isDigit c || ('a' ≤ c && c ≤ 'f') || ('A' ≤ c && c ≤ 'F')

/-- Octal digit test. -/
def isOctDigit (c : Char) : Bool := '0' ≤ c && c ≤ '7'

/-- Binary digit test. -/
def isBinDigit (c : Char) : Bool := c = '0' || c = '1'

/-- Value of a decimal digit character. -/
def digitVal (c : Char) : Nat := c.toNat - '0'.toNat

/-- Value of a hexadecimal digit character. -/
def hexDigitVal (c : Char) : Nat :=
  if isDigit c then c.toNat - '0'.toNat
  else if 'a' ≤ c && c ≤ 'f' then c.toNat - 'a'.toNat + 10
  else c.toNat - 'A'.toNat + 10

/-- Value of a digit string in a given base. -/
def baseVal (base : Nat) (f : Char → Nat) (cs : List Char) : Nat :=
  cs.foldl (fun acc c => acc * base + f c) 0

/-- Value of a decimal digit string. -/
def digitsVal (cs : List Char) : Nat := baseVal 10 digitVal cs

/-- Trim leading and trailing JavaScript whitespace. -/
def jsTrim (cs : List Char) : List Char :=
  ((cs.dropWhile isJsWs).reverse.dropWhile isJsWs).reverse

/-- Number of halvings needed to bring `n` below `2 ^ 53`.  The first
argument is fuel bounding the recursion (`n` itself suffices, since a
positive number halves to below itself); the recursion stops as soon as
the value is below `2 ^ 53`, so only about `log2 n - 52` steps run. -/
def dropBits : Nat → Nat → Nat
  | 0, _ => 0
  | fuel + 1, n => if n < 2 ^ 53 then 0 else dropBits fuel (n / 2) + 1

/-- Round a natural number to the mathematical value of the nearest
IEEE-754 binary64 number, with unbounded exponent (round-to-nearest,
ties-to-even): numbers below `2 ^ 53` are exact; otherwise the low
`e = dropBits n n` bits are dropped, choosing between the two
neighbouring multiples of `2 ^ e` by the remainder, ties going to the
even quotient. -/
def jsRoundNat (n : Nat) : Nat :=
  if n < 2 ^ 53 then n
  else
    let e := dropBits n n
    let q := n / 2 ^ e
    let r := n % 2 ^ e
    let half := 2 ^ (e - 1)
    if half < r ∨ (r = half ∧ q % 2 = 1) then (q + 1) * 2 ^ e else q * 2 ^ e

/-- The mathematical value `2 ^ 1024`, the IEEE-754 binary64 overflow
threshold, written as `(2 ^ 256) ^ 4` so evaluators with a small
exponent limit can still compute it. -/
def pow2_1024 : Nat := (2 ^ 256) ^ 4

/-- Convert the exact integer value `n` of a numeric literal to the
JavaScript number `Number` produces: the nearest double, or `Infinity`
when the rounded value reaches `2 ^ 1024` (IEEE-754 overflow). -/
def jsDouble (n : Nat) : JSNum :=
  if jsRoundNat n < pow2_1024 then JSNum.val (jsRoundNat n) else JSNum.inf

/-- Parse a trimmed, non-empty segment that does not carry a radix
prefix: decimal digits, optionally followed by an (unsigned) exponent
part `e`/`E` digits.  Anything else is `NaN`. -/
def parseNoRadix (cs : List Char) : JSNum :=
  if (cs.takeWhile isDigit).isEmpty then JSNum.nan
  else
    match cs.dropWhile isDigit with
    | [] => jsDouble (digitsVal (cs.takeWhile isDigit))
    | e :: es =>
        if (e = 'e' || e = 'E') && !es.isEmpty && es.all isDigit then
          jsDouble (digitsVal (cs.takeWhile isDigit) * 10 ^ digitsVal es)
        else JSNum.nan

/-- `Number(segment)` restricted to the segment strings this program can
produce (no `'-'`, `'+'` or `'.'` present — those were split away). -/
def jsNumber (cs : List Char) : JSNum :=
  let t := jsTrim cs
  if t.isEmpty then JSNum.val 0
  else if t = "Infinity".data then JSNum.inf
  else if t.take 2 = ['0', 'x'] ∨ t.take 2 = ['0', 'X'] then
    if t.drop 2 ≠ [] ∧ (t.drop 2).all isHexDigit then jsDouble (baseVal 16 hexDigitVal (t.drop 2))
    else JSNum.nan
  else if t.take 2 = ['0', 'o'] ∨ t.take 2 = ['0', 'O'] then
    if t.drop 2 ≠ [] ∧ (t.drop 2).all isOctDigit then jsDouble (baseVal 8 digitVal (t.drop 2))
    else JSNum.nan
  else if t.take 2 = ['0', 'b'] ∨ t.take 2 = ['0', 'B'] then
    if t.drop 2 ≠ [] ∧ (t.drop 2).all isBinDigit then jsDouble (baseVal 2 digitVal (t.drop 2))
    else JSNum.nan
  else parseNoRadix t

/-- `s.split(sep)` for a one-character separator (ECMAScript semantics:
`"".split(sep) = [""]`, empty fields are kept). -/
def splitOnChar (sep : Char) : List Char → List (List Char)
  | [] => [[]]
  | c :: cs =>
      if c = sep then [] :: splitOnChar sep cs
      else
        match splitOnChar sep cs with
        | [] => [[c]]
        | h :: t => (c :: h) :: t

/-- `s.split(sep)[0]`: the prefix before the first occurrence of `sep`
(the whole string when `sep` does not occur). -/
def takeUntilChar (sep : Char) : List Char → List Char
  | [] => []
  | c :: cs => if c = sep then [] else c :: takeUntilChar sep cs

/-- `version.split('-')[0].split('+')[0]`: strip pre-release / build
metadata. -/
def stripMeta (cs : List Char) : List Char :=
  takeUntilChar '+' (takeUntilChar '-' cs)

/-- `extractNumericVersion` from the version-utils module:
`version.split('-')[0].split('+')[0]` then `.split('.').map(Number)`. -/
def extractNumericVersion (cs : List Char) : List JSNum :=
  (splitOnChar '.' (stripMeta cs)).map jsNumber

/-- The `for` loop of `compareVersions`, by fuel recursion starting at
index `i`; the Boolean component records whether the
`console.warn`/`return 0` branch (the `isNaN` guard) was taken. -/
def compareLoop (p1 p2 : List JSNum) : Nat → Nat → Int × Bool
  | _, 0 => (0, false)
  | i, fuel + 1 =>
      let v1 := orZero (p1.get? i)
      let v2 := orZero (p2.get? i)
      if jsIsNaN v1 || jsIsNaN v2 then (0, true)
      else if jsGt v1 v2 then (1, false)
      else if jsLt v1 v2 then (-1, false)
      else compareLoop p1 p2 (i + 1) fuel

/-- `compareVersions`, returning the result together with the flag
recording whether the invalid-format warning was emitted. -/
def compareVersionsRun (version1 version2 : String) : Int × Bool :=
  let v1Parts := extractNumericVersion version1.data
  let v2Parts := extractNumericVersion version2.data
  compareLoop v1Parts v2Parts 0 (max v1Parts.length v2Parts.length)

/-- `compareVersions` from the version-utils module: `1` if
`version1 > version2`, `-1` if `version1 < version2`, `0` if equal. -/
def compareVersions (version1 version2 : String) : Int :=
  (compareVersionsRun version1 version2).1

/-- `isVersionAtLeast` from the version-utils module.  `version` has
TypeScript type `string | null`, modelled as `Option String`; the guard
`if (!version) return false` fires on `null` and on the empty string
(both are falsy). -/
def isVersionAtLeast (version : Option String) (minVersion : String) : Bool :=
  match version with
  | none => false
  | some v => if v = "" then false else decide (compareVersions v minVersion ≥ 0)

/-- The inline gate `isServerVersionAtLeast` of
`src/contexts/ServerContext.tsx`:
`if (!serverVersion) return false; return compareVersions(serverVersion, minVersion) >= 0;`
with `serverVersion : string | null` the context state. -/
def isServerVersionAtLeast (serverVersion : Option String) (minVersion : String) : Bool :=
  match serverVersion with
  | none => false
  | some v => if v = "" then false else decide (compareVersions v minVersion ≥ 0)

/-- A version string is valid (all of its dot-separated segments, after
metadata stripping, are plain non-empty decimal-digit strings). -/
def validVersion (s : String) : Bool :=
  (splitOnChar '.' (stripMeta s.data)).all fun seg => !seg.isEmpty && seg.all isDigit

/-- All segment values are at most `2 ^ 53`: these are exactly the
contiguous range of integers an IEEE-754 double represents exactly, so
`Number` does not round any of them. -/
def exactVersion (s : String) : Bool :=
  (splitOnChar '.' (stripMeta s.data)).all fun seg => decide (digitsVal seg ≤ 2 ^ 53)

/-- The integer sequence a valid version string denotes. -/
def natParts (s : String) : List Nat :=
  (splitOnChar '.' (stripMeta s.data)).map digitsVal

/-- The integer at position `i` of a parsed sequence, absent positions
read as `0`. -/
def padGet (p : List Nat) (i : Nat) : Nat := (p.get? i).getD 0

/-- Positional comparison of two integer sequences, absent positions
read as `0` (the loop of `compareVersions` specialised to parsed
integers). -/
def cmpFromNat (p1 p2 : List Nat) : Nat → Nat → Int
  | _, 0 => 0
  | i, fuel + 1 =>
      if padGet p1 i > padGet p2 i then 1
      else if padGet p1 i < padGet p2 i then -1
      else cmpFromNat p1 p2 (i + 1) fuel

/-- Positional comparison over `max` of the lengths. -/
def cmpParts (p1 p2 : List Nat) : Int :=
  cmpFromNat p1 p2 0 (max p1.length p2.length)

example : compareVersions "4.6.0" "4.5.0" = 1 := by decide
example : compareVersions "4.x.0" "4.5.0" = -1 := by decide
example : compareVersions "4.6" "4.6.0" = 0 := by decide
example : compareVersions "4.6.0-beta.1" "4.6.0" = 0 := by decide
example : compareVersions "4.6.0+build5" "4.6.0" = 0 := by decide
example : isVersionAtLeast (some "4.10.2") "4.9.0" = true := by decide
example : isVersionAtLeast none "4.6.0" = false := by decide
example : isVersionAtLeast (some "4.5.9") "4.6.0" = false := by decide
example : validVersion "4.10.2" = true := by decide
example : jsNumber "1e3".data = JSNum.val 1000 := by decide
example : jsNumber "0x10".data = JSNum.val 16 := by decide
example : jsNumber "Infinity".data = JSNum.inf := by decide
example : jsNumber "".data = JSNum.val 0 := by decide

/-! ### Basic facts about the loop values -/

theorem jsGt_self (v : JSNum) : jsGt v v = false := by
  cases v <;> simp [jsGt]

theorem jsLt_self (v : JSNum) : jsLt v v = false := by
  cases v <;> simp [jsLt]

theorem jsIsNaN_orZero (x : Option JSNum) : jsIsNaN (orZero x) = false := by
  rcases x with _ | v
  · rfl
  · cases v <;> rfl

theorem compareLoop_snd_false (p1 p2 : List JSNum) :
    ∀ fuel i, (compareLoop p1 p2 i fuel).2 = false
  | 0, _ => rfl
  | fuel + 1, i => by
    simp only [compareLoop, jsIsNaN_orZero, Bool.or_self, Bool.false_eq_true, if_false]
    split
    · rfl
    · split
      · rfl
      · exact compareLoop_snd_false p1 p2 fuel (i + 1)

theorem compareLoop_fst_cases (p1 p2 : List JSNum) :
    ∀ fuel i, (compareLoop p1 p2 i fuel).1 = 1 ∨ (compareLoop p1 p2 i fuel).1 = -1 ∨
      (compareLoop p1 p2 i fuel).1 = 0
  | 0, _ => Or.inr (Or.inr rfl)
  | fuel + 1, i => by
    simp only [compareLoop]
    split
    · exact Or.inr (Or.inr rfl)
    · split
      · exact Or.inl rfl
      · split
        · exact Or.inr (Or.inl rfl)
        · exact compareLoop_fst_cases p1 p2 fuel (i + 1)

theorem orZero_cases (x : Option JSNum) :
    (∃ n, orZero x = JSNum.val n) ∨ orZero x = JSNum.inf := by
  rcases x with _ | v
  · exact Or.inl ⟨0, rfl⟩
  · cases v
    · exact Or.inl ⟨0, rfl⟩
    · exact Or.inr rfl
    · exact Or.inl ⟨_, rfl⟩

theorem compareLoop_swap (p q : List JSNum) :
    ∀ fuel i, (compareLoop p q i fuel).1 = -(compareLoop q p i fuel).1
  | 0, _ => rfl
  | fuel + 1, i => by
    simp only [compareLoop, jsIsNaN_orZero, Bool.or_self, Bool.false_eq_true, if_false]
    rcases orZero_cases (p.get? i) with ⟨m, hm⟩ | hm
    · rcases orZero_cases (q.get? i) with ⟨n, hn⟩ | hn
      · rw [hm, hn]
        simp only [jsGt, jsLt, decide_eq_true_eq]
        rcases Nat.lt_trichotomy m n with h | h | h
        · rw [if_neg (show ¬m > n by omega), if_pos (show m < n from h),
            if_pos (show n > m from h)]
        · rw [if_neg (show ¬m > n by omega), if_neg (show ¬m < n by omega),
            if_neg (show ¬n > m by omega), if_neg (show ¬n < m by omega)]
          exact compareLoop_swap p q fuel (i + 1)
        · rw [if_pos (show m > n from h), if_neg (show ¬n > m by omega),
            if_pos (show n < m from h)]
          decide
      · rw [hm, hn]
        rfl
    · rcases orZero_cases (q.get? i) with ⟨n, hn⟩ | hn
      · rw [hm, hn]
        rfl
      · rw [hm, hn]
        simp only [jsGt, jsLt, Bool.false_eq_true, if_false]
        exact compareLoop_swap p q fuel (i + 1)

theorem orZero_of_le {p : List JSNum} {i : Nat} (h : p.length ≤ i) :
    orZero (p.get? i) = JSNum.val 0 := by
  rw [List.get?_eq_none.mpr h]
  rfl

theorem compareLoop_stable (p q : List JSNum) :
    ∀ fuel i, p.length ≤ i → q.length ≤ i → compareLoop p q i fuel = (0, false)
  | 0, _, _, _ => rfl
  | fuel + 1, i, hp, hq => by
    simp only [compareLoop, orZero_of_le hp, orZero_of_le hq, jsIsNaN, jsGt, jsLt,
      Bool.or_self, Bool.false_eq_true, if_false, decide_eq_true_eq]
    rw [if_neg (lt_irrefl 0), if_neg (lt_irrefl 0)]
    exact compareLoop_stable p q fuel (i + 1) (Nat.le_succ_of_le hp) (Nat.le_succ_of_le hq)

theorem compareLoop_extend (p q : List JSNum) :
    ∀ fuel1 fuel2 i, max p.length q.length ≤ i + fuel1 →
      max p.length q.length ≤ i + fuel2 →
      compareLoop p q i fuel1 = compareLoop p q i fuel2
  | 0, fuel2, i, h1, h2 => (compareLoop_stable p q fuel2 i (by omega) (by omega)).symm
  | fuel1 + 1, 0, i, h1, h2 => compareLoop_stable p q (fuel1 + 1) i (by omega) (by omega)
  | fuel1 + 1, fuel2 + 1, i, h1, h2 => by
    simp only [compareLoop, jsIsNaN_orZero, Bool.or_self, Bool.false_eq_true, if_false]
    by_cases hgt : jsGt (orZero (p.get? i)) (orZero (q.get? i)) = true
    · rw [if_pos hgt, if_pos hgt]
    · rw [if_neg hgt, if_neg hgt]
      by_cases hlt : jsLt (orZero (p.get? i)) (orZero (q.get? i)) = true
      · rw [if_pos hlt, if_pos hlt]
      · rw [if_neg hlt, if_neg hlt]
        exact compareLoop_extend p q fuel1 fuel2 (i + 1) (by omega) (by omega)

theorem compareLoop_fst_trans (p q r : List JSNum) :
    ∀ fuel i, (compareLoop p q i fuel).1 ≠ -1 → (compareLoop q r i fuel).1 ≠ -1 →
      (compareLoop p r i fuel).1 ≠ -1
  | 0, i, _, _ => by
    intro h
    rw [compareLoop] at h
    exact absurd h (by decide)
  | fuel + 1, i, hpq, hqr => by
    simp only [compareLoop, jsIsNaN_orZero, Bool.or_self, Bool.false_eq_true, if_false]
      at hpq hqr ⊢
    rcases orZero_cases (p.get? i) with ⟨m1, h1⟩ | h1
    · rcases orZero_cases (q.get? i) with ⟨m2, h2⟩ | h2
      · rcases orZero_cases (r.get? i) with ⟨m3, h3⟩ | h3
        · rw [h1, h2] at hpq
          rw [h2, h3] at hqr
          rw [h1, h3]
          simp only [jsGt, jsLt, decide_eq_true_eq] at hpq hqr ⊢
          rcases Nat.lt_trichotomy m1 m2 with hc | hc | hc
          · exfalso
            apply hpq
            rw [if_neg (show ¬m1 > m2 by omega), if_pos (show m1 < m2 from hc)]
          · rcases Nat.lt_trichotomy m2 m3 with hd | hd | hd
            · exfalso
              apply hqr
              rw [if_neg (show ¬m2 > m3 by omega), if_pos (show m2 < m3 from hd)]
            · rw [if_neg (show ¬m1 > m3 by omega), if_neg (show ¬m1 < m3 by omega)]
              rw [if_neg (show ¬m1 > m2 by omega), if_neg (show ¬m1 < m2 by omega)] at hpq
              rw [if_neg (show ¬m2 > m3 by omega), if_neg (show ¬m2 < m3 by omega)] at hqr
              exact compareLoop_fst_trans p q r fuel (i + 1) hpq hqr
            · rw [if_pos (show m1 > m3 by omega)]
              decide
          · rcases Nat.lt_trichotomy m2 m3 with hd | hd | hd
            · exfalso
              apply hqr
              rw [if_neg (show ¬m2 > m3 by omega), if_pos (show m2 < m3 from hd)]
            · rw [if_pos (show m1 > m3 by omega)]
              decide
            · rw [if_pos (show m1 > m3 by omega)]
              decide
        · exfalso
          apply hqr
          rw [h2, h3]
          rfl
      · rcases orZero_cases (r.get? i) with ⟨m3, h3⟩ | h3
        · exfalso
          apply hpq
          rw [h1, h2]
          rfl
        · exfalso
          apply hpq
          rw [h1, h2]
          rfl
    · rcases orZero_cases (q.get? i) with ⟨m2, h2⟩ | h2
      · rcases orZero_cases (r.get? i) with ⟨m3, h3⟩ | h3
        · rw [h1, h3]
          simp [jsGt]
        · exfalso
          apply hqr
          rw [h2, h3]
          rfl
      · rcases orZero_cases (r.get? i) with ⟨m3, h3⟩ | h3
        · rw [h1, h3]
          simp [jsGt]
        · rw [h1, h3]
          rw [h1, h2] at hpq
          rw [h2, h3] at hqr
          simp only [jsGt, jsLt, Bool.false_eq_true, if_false] at hpq hqr ⊢
          exact compareLoop_fst_trans p q r fuel (i + 1) hpq hqr

/-! ### Claim theorems: C1, C2, C9, C10, C3 -/

/-- C1: the spec's malformed-input law claims `compareVersions` returns
EQUAL (0) whenever some segment fails to parse, in particular on
`("4.x.0", "4.5.0")`.  The code instead coerces the `NaN` segment to `0`
(`v1Parts[i] || 0`) before the `isNaN` guard and returns LESS (-1) on
this input, without emitting the warning. -/
theorem compareVersions_malformed_returns_less :
    compareVersions "4.x.0" "4.5.0" = -1 ∧
      (compareVersionsRun "4.x.0" "4.5.0").2 = false := by
  decide

/-- C2: the `isNaN` guard branch of `compareVersions` is unreachable:
the warning flag is `false` on every pair of inputs, because
`v1Parts[i] || 0` maps both absent (`undefined`) and `NaN` segments to
`0` before the guard runs; consequently a non-numeric segment is
silently treated as `0` (e.g. `"4.x.0"` compares exactly like
`"4.0.0"`). -/
theorem compareVersions_never_warns :
    (∀ version1 version2 : String, (compareVersionsRun version1 version2).2 = false) ∧
    (∀ x : Option JSNum, jsIsNaN (orZero x) = false) ∧
    compareVersions "4.x.0" "4.5.0" = compareVersions "4.0.0" "4.5.0" := by
  refine ⟨fun v1 v2 => ?_, jsIsNaN_orZero, by decide⟩
  exact compareLoop_snd_false _ _ _ _

/-- C9: totality — on every pair of input strings `compareVersions`
produces one of the three defined ordering outcomes (1, -1 or 0), and
`isVersionAtLeast` produces a boolean; no error is ever raised (both
are total functions of their inputs). -/
theorem compareVersions_total :
    (∀ a b : String, compareVersions a b = 1 ∨ compareVersions a b = -1 ∨
      compareVersions a b = 0) ∧
    (∀ (v : Option String) (m : String),
      isVersionAtLeast v m = true ∨ isVersionAtLeast v m = false) := by
  refine ⟨fun a b => ?_, fun v m => ?_⟩
  · exact compareLoop_fst_cases _ _ _ _
  · cases h : isVersionAtLeast v m
    · exact Or.inr rfl
    · exact Or.inl rfl

/-- C10: the inline gate `isServerVersionAtLeast` of `ServerContext` is
extensionally equal to the library function `isVersionAtLeast`, for
every server version (string or null) and every minimum version. -/
theorem isServerVersionAtLeast_eq_isVersionAtLeast :
    ∀ (serverVersion : Option String) (minVersion : String),
      isServerVersionAtLeast serverVersion minVersion =
        isVersionAtLeast serverVersion minVersion :=
  fun _ _ => rfl

/-- C3 counterexample: the claim states that for non-null `current` the
gate returns true exactly when `compareVersions current min ≥ 0`; but
for `current = ""` (a string, not null) the guard `!version` fires, the
gate returns false, while `compareVersions "" "0" = 0 ≥ 0`. -/
theorem isVersionAtLeast_empty_string_counterexample :
    isVersionAtLeast (some "") "0" = false ∧ compareVersions "" "0" = 0 := by
  decide

/-- C3 (amended): `isVersionAtLeast` returns false when `current` is
null or the empty string (both falsy); for every other string it
returns true exactly when `compareVersions current min ≥ 0`. -/
theorem isVersionAtLeast_characterisation :
    (∀ m : String, isVersionAtLeast none m = false) ∧
    (∀ m : String, isVersionAtLeast (some "") m = false) ∧
    (∀ v m : String, v ≠ "" →
      (isVersionAtLeast (some v) m = true ↔ compareVersions v m ≥ 0)) := by
  refine ⟨fun m => rfl, fun m => by simp [isVersionAtLeast], fun v m hv => ?_⟩
  simp [isVersionAtLeast, hv]

theorem isVersionAtLeast_characterisation_witness :
    isVersionAtLeast (some "4.6.0") "4.6.0" = true :=
  (isVersionAtLeast_characterisation.2.2 "4.6.0" "4.6.0" (by decide)).mpr (by decide)

/-! ### Valid version strings parse to their integer sequences -/

theorem dropWhile_all_false {α : Type} {p : α → Bool} :
    ∀ (l : List α), (∀ c ∈ l, p c = false) → l.dropWhile p = l
  | [], _ => rfl
  | c :: cs, h => by
    simp [List.dropWhile_cons, h c (List.mem_cons_self c cs)]

theorem takeWhile_all_true {α : Type} {p : α → Bool} :
    ∀ (l : List α), (∀ c ∈ l, p c = true) → l.takeWhile p = l
  | [], _ => rfl
  | c :: cs, h => by
    simp only [List.takeWhile_cons, h c (List.mem_cons_self c cs), if_true]
    exact congrArg (c :: ·) (takeWhile_all_true cs fun d hd => h d (List.mem_cons_of_mem c hd))

theorem dropWhile_all_true {α : Type} {p : α → Bool} :
    ∀ (l : List α), (∀ c ∈ l, p c = true) → l.dropWhile p = []
  | [], _ => rfl
  | c :: cs, h => by
    simp only [List.dropWhile_cons, h c (List.mem_cons_self c cs), if_true]
    exact dropWhile_all_true cs fun d hd => h d (List.mem_cons_of_mem c hd)

theorem digit_ne {c d : Char} (h : isDigit c = true) (hd : isDigit d = false) : c ≠ d := by
  intro he
  rw [he, hd] at h
  exact Bool.false_ne_true h

theorem digit_not_ws {c : Char} (h : isDigit c = true) : isJsWs c = false := by
  rw [Bool.eq_false_iff]
  intro hw
  simp only [isJsWs, Bool.or_eq_true, decide_eq_true_eq] at hw
  rcases hw with ((((rfl | rfl) | rfl) | rfl) | rfl) | rfl <;> exact absurd h (by decide)

theorem jsTrim_all_digits (cs : List Char) (h : ∀ c ∈ cs, isDigit c = true) :
    jsTrim cs = cs := by
  unfold jsTrim
  rw [dropWhile_all_false cs (fun c hc => digit_not_ws (h c hc))]
  rw [dropWhile_all_false cs.reverse
    (fun c hc => digit_not_ws (h c (List.mem_reverse.mp hc)))]
  exact List.reverse_reverse cs

theorem parseNoRadix_all_digits (cs : List Char) (hne : cs ≠ [])
    (h : ∀ c ∈ cs, isDigit c = true) : parseNoRadix cs = jsDouble (digitsVal cs) := by
  have hie : cs.isEmpty = false := by
    cases cs
    · exact absurd rfl hne
    · rfl
  simp only [parseNoRadix, takeWhile_all_true cs h, dropWhile_all_true cs h, hie,
    Bool.false_eq_true, if_false]

theorem jsNumber_all_digits (cs : List Char) (hne : cs ≠ [])
    (h : ∀ c ∈ cs, isDigit c = true) : jsNumber cs = jsDouble (digitsVal cs) := by
  have htrim : jsTrim cs = cs := jsTrim_all_digits cs h
  have hie : cs.isEmpty = false := by
    cases cs
    · exact absurd rfl hne
    · rfl
  have hinf : cs ≠ "Infinity".data := by
    intro he
    rcases cs with _ | ⟨c, cs'⟩
    · exact hne rfl
    · have hI : "Infinity".data = 'I' :: "nfinity".data := rfl
      rw [hI] at he
      exact digit_ne (h c (List.mem_cons_self c cs')) (by decide)
        (List.cons_eq_cons.mp he).1
  have htake : ∀ d : Char, isDigit d = false → cs.take 2 ≠ ['0', d] := by
    intro d hd he
    rcases cs with _ | ⟨c, _ | ⟨x, rest⟩⟩
    · exact hne rfl
    · simp [List.take] at he
    · simp only [List.take, List.cons.injEq, and_true] at he
      exact digit_ne (h x (by simp)) hd he.2
  simp only [jsNumber, htrim, hie, Bool.false_eq_true, if_false]
  rw [if_neg hinf]
  rw [if_neg (by rintro (he | he) <;> exact htake _ (by decide) he)]
  rw [if_neg (by rintro (he | he) <;> exact htake _ (by decide) he)]
  rw [if_neg (by rintro (he | he) <;> exact htake _ (by decide) he)]
  exact parseNoRadix_all_digits cs hne h

theorem jsDouble_small {n : Nat} (h : n ≤ 2 ^ 53) : jsDouble n = JSNum.val n := by
  rcases Nat.lt_or_ge n (2 ^ 53) with hlt | hge
  · have hlt2 : n < pow2_1024 :=
      lt_of_lt_of_le hlt (by decide : 2 ^ 53 ≤ pow2_1024)
    simp only [jsDouble, jsRoundNat, if_pos hlt]
    rw [if_pos hlt2]
  · have he : n = 2 ^ 53 := Nat.le_antisymm h hge
    subst he
    decide

theorem extract_valid (s : String) (h : validVersion s = true)
    (hx : exactVersion s = true) :
    extractNumericVersion s.data = (natParts s).map JSNum.val := by
  unfold extractNumericVersion natParts
  rw [List.map_map]
  apply List.map_congr_left
  intro seg hseg
  unfold validVersion at h
  unfold exactVersion at hx
  rw [List.all_eq_true] at h hx
  have h2 := h seg hseg
  rw [Bool.and_eq_true] at h2
  have hne : seg ≠ [] := by
    intro he
    rw [he] at h2
    exact absurd h2.1 (by decide)
  rw [jsNumber_all_digits seg hne (List.all_eq_true.mp h2.2),
    jsDouble_small (of_decide_eq_true (hx seg hseg))]
  rfl

/-! ### The loop on cleanly parsed sequences is positional integer comparison -/

theorem get?_map_val :
    ∀ (p : List Nat) (i : Nat), (p.map JSNum.val).get? i = (p.get? i).map JSNum.val
  | [], _ => rfl
  | _ :: _, 0 => rfl
  | _ :: p, i + 1 => get?_map_val p i

theorem orZero_map_val (p : List Nat) (i : Nat) :
    orZero ((p.map JSNum.val).get? i) = JSNum.val (padGet p i) := by
  rw [get?_map_val]
  unfold padGet
  cases p.get? i <;> rfl

theorem compareLoop_map_val (p q : List Nat) :
    ∀ fuel i, compareLoop (p.map JSNum.val) (q.map JSNum.val) i fuel =
      (cmpFromNat p q i fuel, false)
  | 0, _ => rfl
  | fuel + 1, i => by
    simp only [compareLoop, cmpFromNat, orZero_map_val, jsIsNaN, jsGt, jsLt, Bool.or_self,
      Bool.false_eq_true, if_false, decide_eq_true_eq]
    by_cases hgt : padGet p i > padGet q i
    · rw [if_pos hgt, if_pos hgt]
    · rw [if_neg hgt, if_neg hgt]
      by_cases hlt : padGet p i < padGet q i
      · rw [if_pos hlt, if_pos hlt]
      · rw [if_neg hlt, if_neg hlt]
        exact compareLoop_map_val p q fuel (i + 1)

theorem compareVersions_valid (a b : String) (ha : validVersion a = true)
    (hb : validVersion b = true) (hxa : exactVersion a = true)
    (hxb : exactVersion b = true) :
    compareVersions a b = cmpParts (natParts a) (natParts b) := by
  simp only [compareVersions, compareVersionsRun, cmpParts]
  rw [extract_valid a ha hxa, extract_valid b hb hxb, List.length_map, List.length_map,
    compareLoop_map_val]

/-! ### Order-theoretic facts about positional comparison -/

theorem cmpFromNat_swap (p q : List Nat) :
    ∀ fuel i, cmpFromNat q p i fuel = -cmpFromNat p q i fuel
  | 0, _ => rfl
  | fuel + 1, i => by
    simp only [cmpFromNat]
    rcases Nat.lt_trichotomy (padGet p i) (padGet q i) with h | h | h
    · rw [if_pos (show padGet q i > padGet p i from h),
        if_neg (show ¬padGet p i > padGet q i by omega),
        if_pos (show padGet p i < padGet q i from h)]
      decide
    · rw [if_neg (show ¬padGet q i > padGet p i by omega),
        if_neg (show ¬padGet q i < padGet p i by omega),
        if_neg (show ¬padGet p i > padGet q i by omega),
        if_neg (show ¬padGet p i < padGet q i by omega)]
      exact cmpFromNat_swap p q fuel (i + 1)
    · rw [if_neg (show ¬padGet q i > padGet p i by omega),
        if_pos (show padGet q i < padGet p i from h),
        if_pos (show padGet p i > padGet q i from h)]

theorem padGet_eq_zero {p : List Nat} {i : Nat} (h : p.length ≤ i) : padGet p i = 0 := by
  unfold padGet
  rw [List.get?_eq_none.mpr h]
  rfl

theorem cmpFromNat_stable (p q : List Nat) :
    ∀ fuel i, p.length ≤ i → q.length ≤ i → cmpFromNat p q i fuel = 0
  | 0, _, _, _ => rfl
  | fuel + 1, i, hp, hq => by
    simp only [cmpFromNat, padGet_eq_zero hp, padGet_eq_zero hq]
    rw [if_neg (lt_irrefl 0), if_neg (lt_irrefl 0)]
    exact cmpFromNat_stable p q fuel (i + 1) (Nat.le_succ_of_le hp) (Nat.le_succ_of_le hq)

theorem cmpFromNat_extend (p q : List Nat) :
    ∀ fuel1 fuel2 i, max p.length q.length ≤ i + fuel1 → max p.length q.length ≤ i + fuel2 →
      cmpFromNat p q i fuel1 = cmpFromNat p q i fuel2
  | 0, fuel2, i, h1, h2 =>
      (cmpFromNat_stable p q fuel2 i (by omega) (by omega)).symm
  | fuel1 + 1, 0, i, h1, h2 =>
      cmpFromNat_stable p q (fuel1 + 1) i (by omega) (by omega)
  | fuel1 + 1, fuel2 + 1, i, h1, h2 => by
    simp only [cmpFromNat]
    by_cases hgt : padGet p i > padGet q i
    · rw [if_pos hgt, if_pos hgt]
    · rw [if_neg hgt, if_neg hgt]
      by_cases hlt : padGet p i < padGet q i
      · rw [if_pos hlt, if_pos hlt]
      · rw [if_neg hlt, if_neg hlt]
        exact cmpFromNat_extend p q fuel1 fuel2 (i + 1) (by omega) (by omega)

theorem cmpFromNat_trans (p q r : List Nat) :
    ∀ fuel i, cmpFromNat p q i fuel ≠ -1 → cmpFromNat q r i fuel ≠ -1 →
      cmpFromNat p r i fuel ≠ -1
  | 0, i, _, _ => by
    intro h
    rw [cmpFromNat] at h
    exact absurd h (by decide)
  | fuel + 1, i, hpq, hqr => by
    simp only [cmpFromNat] at hpq hqr ⊢
    rcases Nat.lt_trichotomy (padGet p i) (padGet q i) with h1 | h1 | h1
    · exfalso
      apply hpq
      rw [if_neg (show ¬padGet p i > padGet q i by omega),
        if_pos (show padGet p i < padGet q i from h1)]
    · rcases Nat.lt_trichotomy (padGet q i) (padGet r i) with h2 | h2 | h2
      · exfalso
        apply hqr
        rw [if_neg (show ¬padGet q i > padGet r i by omega),
          if_pos (show padGet q i < padGet r i from h2)]
      · rw [if_neg (show ¬padGet p i > padGet r i by omega),
          if_neg (show ¬padGet p i < padGet r i by omega)]
        rw [if_neg (show ¬padGet p i > padGet q i by omega),
          if_neg (show ¬padGet p i < padGet q i by omega)] at hpq
        rw [if_neg (show ¬padGet q i > padGet r i by omega),
          if_neg (show ¬padGet q i < padGet r i by omega)] at hqr
        exact cmpFromNat_trans p q r fuel (i + 1) hpq hqr
      · rw [if_pos (show padGet p i > padGet r i by omega)]
        decide
    · rcases Nat.lt_trichotomy (padGet q i) (padGet r i) with h2 | h2 | h2
      · exfalso
        apply hqr
        rw [if_neg (show ¬padGet q i > padGet r i by omega),
          if_pos (show padGet q i < padGet r i from h2)]
      · rw [if_pos (show padGet p i > padGet r i by omega)]
        decide
      · rw [if_pos (show padGet p i > padGet r i by omega)]
        decide

/-! ### Claim theorems: C4, C7, C8 -/

/-- C4 counterexample: the claim quantifies over all strings whose
segments parse as integers, but above `2 ^ 53` JavaScript's `Number`
rounds to the nearest double: both `"9007199254740993"` (2^53 + 1) and
`"9007199254740992"` (2^53) parse to the double 2^53, so the function
returns EQUAL (0) although the first integer is larger and positional
comparison of the integer sequences (`cmpParts`) demands GREATER (1). -/
theorem compareVersions_exact_counterexample :
    validVersion "9007199254740993" = true ∧ validVersion "9007199254740992" = true ∧
    compareVersions "9007199254740993" "9007199254740992" = 0 ∧
    cmpParts (natParts "9007199254740993") (natParts "9007199254740992") = 1 := by
  decide

/-- C4 (amended): on version strings whose (metadata-stripped) segments
all parse as integers of value at most `2 ^ 53` — the contiguous range
of integers an IEEE-754 double represents exactly, so `Number` does not
round them — `compareVersions` performs positional numeric comparison
of the integer sequences (`cmpParts`: at the first differing position,
GREATER if the first value is larger, else LESS, absent positions read
as 0); the comparison is numeric, not lexicographic on digits, and
`isVersionAtLeast "4.10.2" "4.9.0"` holds. -/
theorem compareVersions_numeric_positional :
    (∀ a b : String, validVersion a = true → validVersion b = true →
      exactVersion a = true → exactVersion b = true →
      compareVersions a b = cmpParts (natParts a) (natParts b)) ∧
    isVersionAtLeast (some "4.10.2") "4.9.0" = true :=
  ⟨compareVersions_valid, by decide⟩

theorem compareVersions_numeric_positional_witness :
    validVersion "4.10.2" = true ∧ validVersion "4.9.0" = true ∧
      exactVersion "4.10.2" = true ∧ exactVersion "4.9.0" = true ∧
      compareVersions "4.10.2" "4.9.0" = cmpParts (natParts "4.10.2") (natParts "4.9.0") :=
  ⟨by decide, by decide, by decide, by decide,
    compareVersions_numeric_positional.1 "4.10.2" "4.9.0" (by decide) (by decide)
      (by decide) (by decide)⟩

/-- C7: antisymmetry — for version strings whose segments all parse
cleanly as integers, `compareVersions a b = -compareVersions b a`. -/
theorem compareVersions_antisymm (a b : String) (ha : validVersion a = true)
    (hb : validVersion b = true) : compareVersions a b = -compareVersions b a := by
  simp only [compareVersions, compareVersionsRun]
  rw [Nat.max_comm (extractNumericVersion b.data).length
    (extractNumericVersion a.data).length]
  exact compareLoop_swap (extractNumericVersion a.data) (extractNumericVersion b.data) _ 0

theorem compareVersions_antisymm_witness :
    compareVersions "4.10.2" "4.9.0" = -compareVersions "4.9.0" "4.10.2" :=
  compareVersions_antisymm "4.10.2" "4.9.0" (by decide) (by decide)

/-- C8: transitivity of the induced order — for version strings `a`,
`b`, `c` whose segments all parse cleanly as integers, if
`compareVersions a b ≠ LESS` and `compareVersions b c ≠ LESS` then
`compareVersions a c ≠ LESS`. -/
theorem compareVersions_trans (a b c : String) (ha : validVersion a = true)
    (hb : validVersion b = true) (hc : validVersion c = true)
    (hab : compareVersions a b ≠ -1) (hbc : compareVersions b c ≠ -1) :
    compareVersions a c ≠ -1 := by
  simp only [compareVersions, compareVersionsRun] at hab hbc ⊢
  rw [compareLoop_extend (extractNumericVersion a.data) (extractNumericVersion b.data)
    (max (extractNumericVersion a.data).length (extractNumericVersion b.data).length)
    (max (max (extractNumericVersion a.data).length (extractNumericVersion b.data).length)
      (extractNumericVersion c.data).length) 0 (by omega) (by omega)] at hab
  rw [compareLoop_extend (extractNumericVersion b.data) (extractNumericVersion c.data)
    (max (extractNumericVersion b.data).length (extractNumericVersion c.data).length)
    (max (max (extractNumericVersion a.data).length (extractNumericVersion b.data).length)
      (extractNumericVersion c.data).length) 0 (by omega) (by omega)] at hbc
  rw [compareLoop_extend (extractNumericVersion a.data) (extractNumericVersion c.data)
    (max (extractNumericVersion a.data).length (extractNumericVersion c.data).length)
    (max (max (extractNumericVersion a.data).length (extractNumericVersion b.data).length)
      (extractNumericVersion c.data).length) 0 (by omega) (by omega)]
  exact compareLoop_fst_trans (extractNumericVersion a.data) (extractNumericVersion b.data)
    (extractNumericVersion c.data) _ 0 hab hbc

theorem compareVersions_trans_witness : compareVersions "4.6.0" "4.4.9" ≠ -1 :=
  compareVersions_trans "4.6.0" "4.5.0" "4.4.9" (by decide) (by decide) (by decide)
    (by decide) (by decide)

/-! ### Metadata stripping and zero padding -/

theorem takeUntilChar_not_mem {c : Char} :
    ∀ (xs : List Char), c ∉ xs → takeUntilChar c xs = xs
  | [], _ => rfl
  | x :: xs, h => by
    have hx : x ≠ c := fun he => h (by rw [← he]; exact List.mem_cons_self x xs)
    simp only [takeUntilChar, if_neg hx]
    rw [takeUntilChar_not_mem xs (fun hm => h (List.mem_cons_of_mem x hm))]

theorem takeUntilChar_append_not_mem {c : Char} :
    ∀ (xs ys : List Char), c ∉ xs → takeUntilChar c (xs ++ ys) = xs ++ takeUntilChar c ys
  | [], _, _ => rfl
  | x :: xs, ys, h => by
    have hx : x ≠ c := fun he => h (by rw [← he]; exact List.mem_cons_self x xs)
    simp only [List.cons_append, takeUntilChar, if_neg hx, List.append_eq]
    rw [takeUntilChar_append_not_mem xs ys (fun hm => h (List.mem_cons_of_mem x hm))]

theorem takeUntilChar_append_mem {c : Char} :
    ∀ (xs ys : List Char), c ∈ xs → takeUntilChar c (xs ++ ys) = takeUntilChar c xs
  | [], _, h => absurd h (List.not_mem_nil c)
  | x :: xs, ys, h => by
    by_cases hx : x = c
    · simp only [List.cons_append, takeUntilChar, if_pos hx]
    · have hm : c ∈ xs := by
        rcases List.mem_cons.mp h with he | hm
        · exact absurd he.symm hx
        · exact hm
      simp only [List.cons_append, takeUntilChar, if_neg hx, List.append_eq,
        takeUntilChar_append_mem xs ys hm]

theorem takeUntilChar_append_self {c : Char} (xs ys : List Char) (h : c ∉ xs) :
    takeUntilChar c (xs ++ c :: ys) = xs := by
  rw [takeUntilChar_append_not_mem xs (c :: ys) h]
  simp [takeUntilChar]

theorem splitOnChar_ne_nil (sep : Char) : ∀ (cs : List Char), splitOnChar sep cs ≠ []
  | [] => List.cons_ne_nil _ _
  | c :: cs => by
    by_cases hc : c = sep
    · rw [splitOnChar, if_pos hc]
      exact List.cons_ne_nil _ _
    · rw [splitOnChar, if_neg hc]
      cases hs : splitOnChar sep cs
      · exact List.cons_ne_nil _ _
      · exact List.cons_ne_nil _ _

theorem splitOnChar_append_sep (sep : Char) :
    ∀ (xs ys : List Char),
      splitOnChar sep (xs ++ sep :: ys) = splitOnChar sep xs ++ splitOnChar sep ys
  | [], ys => by
    show splitOnChar sep (sep :: ys) = [[]] ++ splitOnChar sep ys
    rw [splitOnChar, if_pos rfl]
    rfl
  | x :: xs, ys => by
    by_cases hx : x = sep
    · simp only [List.cons_append, splitOnChar, if_pos hx, List.append_eq,
        splitOnChar_append_sep sep xs ys]
    · simp only [List.cons_append, splitOnChar, if_neg hx, List.append_eq,
        splitOnChar_append_sep sep xs ys]
      cases hsx : splitOnChar sep xs
      · exact absurd hsx (splitOnChar_ne_nil sep xs)
      · rfl

theorem jsGt_orZero_self (x : Option JSNum) : jsGt (orZero x) (orZero x) = false :=
  jsGt_self (orZero x)

theorem orZero_append_zero :
    ∀ (p : List JSNum) (i : Nat),
      orZero ((p ++ [JSNum.val 0]).get? i) = orZero (p.get? i)
  | [], 0 => rfl
  | [], _ + 1 => rfl
  | _ :: _, 0 => rfl
  | _ :: t, i + 1 => orZero_append_zero t i

theorem compareLoop_refl (p : List JSNum) : ∀ fuel i, compareLoop p p i fuel = (0, false)
  | 0, _ => rfl
  | fuel + 1, i => by
    simp only [compareLoop, jsIsNaN_orZero, Bool.or_self, Bool.false_eq_true, if_false,
      jsGt_self, jsLt_self]
    exact compareLoop_refl p fuel (i + 1)

theorem compareLoop_append_zero (p : List JSNum) :
    ∀ fuel i, compareLoop p (p ++ [JSNum.val 0]) i fuel = (0, false)
  | 0, _ => rfl
  | fuel + 1, i => by
    simp only [compareLoop, orZero_append_zero, jsIsNaN_orZero, Bool.or_self,
      Bool.false_eq_true, if_false, jsGt_self, jsLt_self]
    exact compareLoop_append_zero p fuel (i + 1)

theorem compareVersions_zero_of_extract_eq {v1 v2 : String}
    (h : extractNumericVersion v2.data = extractNumericVersion v1.data) :
    compareVersions v1 v2 = 0 := by
  simp only [compareVersions, compareVersionsRun, h, compareLoop_refl]

theorem compareVersions_zero_of_extract_append {v1 v2 : String}
    (h : extractNumericVersion v2.data = extractNumericVersion v1.data ++ [JSNum.val 0]) :
    compareVersions v1 v2 = 0 := by
  simp only [compareVersions, compareVersionsRun, h, compareLoop_append_zero]

theorem compareVersions_eq_of_strip {v1 w1 : String} (v2 : String)
    (h : stripMeta v1.data = stripMeta w1.data) :
    compareVersions v1 v2 = compareVersions w1 v2 := by
  simp only [compareVersions, compareVersionsRun, extractNumericVersion, h]

theorem stripMeta_dash (a m : List Char) (h1 : '-' ∉ a) :
    stripMeta (a ++ '-' :: m) = stripMeta a := by
  unfold stripMeta
  rw [takeUntilChar_append_self a m h1, takeUntilChar_not_mem a h1]

theorem stripMeta_plus (a m : List Char) (h1 : '-' ∉ a) (h2 : '+' ∉ a) :
    stripMeta (a ++ '+' :: m) = stripMeta a := by
  unfold stripMeta
  rw [takeUntilChar_append_not_mem a ('+' :: m) h1]
  rw [show takeUntilChar '-' ('+' :: m) = '+' :: takeUntilChar '-' m from by
    rw [takeUntilChar, if_neg (by decide)]]
  rw [takeUntilChar_append_self a _ h2, takeUntilChar_not_mem a h1, takeUntilChar_not_mem a h2]

theorem compareVersions_pad_zero (a : String) : compareVersions a (a ++ ".0") = 0 := by
  have hdata : (a ++ ".0").data = a.data ++ '.' :: ['0'] := by
    rw [String.data_append]
  by_cases hdash : '-' ∈ a.data
  · apply compareVersions_zero_of_extract_eq
    unfold extractNumericVersion stripMeta
    rw [hdata, takeUntilChar_append_mem a.data _ hdash]
  · by_cases hplus : '+' ∈ a.data
    · apply compareVersions_zero_of_extract_eq
      unfold extractNumericVersion stripMeta
      rw [hdata, takeUntilChar_append_not_mem a.data _ hdash,
        show takeUntilChar '-' ['.', '0'] = ['.', '0'] from rfl,
        takeUntilChar_append_mem a.data _ hplus, takeUntilChar_not_mem a.data hdash]
    · apply compareVersions_zero_of_extract_append
      unfold extractNumericVersion stripMeta
      rw [hdata, takeUntilChar_append_not_mem a.data _ hdash,
        show takeUntilChar '-' ['.', '0'] = ['.', '0'] from rfl,
        takeUntilChar_append_not_mem a.data _ hplus,
        show takeUntilChar '+' ['.', '0'] = ['.', '0'] from rfl,
        takeUntilChar_not_mem a.data hdash, takeUntilChar_not_mem a.data hplus,
        splitOnChar_append_sep '.' a.data ['0'], List.map_append]
      rfl

/-! ### Claim theorems: C5, C6 -/

/-- C5: missing trailing components are treated as zero — appending a
`".0"` component to any version string never changes the comparison
against the original (the loop runs to the longer length and reads the
absent segment of the shorter as 0); in particular
`compareVersions "4.6" "4.6.0" = EQUAL`. -/
theorem compareVersions_missing_trailing_zero :
    (∀ a : String, compareVersions a (a ++ ".0") = 0) ∧
    compareVersions "4.6" "4.6.0" = 0 :=
  ⟨compareVersions_pad_zero, by decide⟩

/-- C6: pre-release and build metadata never affect the ordering —
everything from the first `'-'` or `'+'` on is discarded before numeric
parsing, so appending `-suffix` or `+suffix` to a metadata-free version
string leaves every comparison unchanged; in particular
`compareVersions "4.6.0-beta.1" "4.6.0" = EQUAL` and
`compareVersions "4.6.0+build5" "4.6.0" = EQUAL`. -/
theorem compareVersions_ignores_metadata :
    (∀ a m b : String, '-' ∉ a.data → '+' ∉ a.data →
      compareVersions (a ++ "-" ++ m) b = compareVersions a b ∧
      compareVersions (a ++ "+" ++ m) b = compareVersions a b) ∧
    compareVersions "4.6.0-beta.1" "4.6.0" = 0 ∧
    compareVersions "4.6.0+build5" "4.6.0" = 0 := by
  refine ⟨fun a m b h1 h2 => ⟨?_, ?_⟩, by decide, by decide⟩
  · apply compareVersions_eq_of_strip
    rw [show (a ++ "-" ++ m).data = a.data ++ '-' :: m.data from by
      rw [String.data_append, String.data_append, List.append_assoc]
      rfl]
    exact stripMeta_dash a.data m.data h1
  · apply compareVersions_eq_of_strip
    rw [show (a ++ "+" ++ m).data = a.data ++ '+' :: m.data from by
      rw [String.data_append, String.data_append, List.append_assoc]
      rfl]
    exact stripMeta_plus a.data m.data h1 h2

theorem compareVersions_ignores_metadata_witness :
    compareVersions ("4.6.0" ++ "-" ++ "beta.1") "4.6.0" = compareVersions "4.6.0" "4.6.0" ∧
    compareVersions ("4.6.0" ++ "+" ++ "beta.1") "4.6.0" = compareVersions "4.6.0" "4.6.0" :=
  compareVersions_ignores_metadata.1 "4.6.0" "beta.1" "4.6.0" (by decide) (by decide)
